import Mathlib

/-!
Verification of the isotherm re-referencing computation of `src/main.py`
(Isotherm Shifter).

The program cleans an uploaded two-column table of (relative humidity,
water loading) points, interpolates a baseline loading at a user-chosen
starting humidity with `np.interp`, and derives an adjusted-uptake column

  `(1.0 + iso[q_col] - initial_total_mass) / initial_total_mass`

with `initial_total_mass = 1.0 + baseline_q`.  Real numbers are modelled
by `ℚ` (all arithmetic in the script is exact-rational expressible; the
spec's properties are stated up to floating-point tolerance and hold
exactly over `ℚ`).
-/

/-- One isotherm data point: a relative humidity together with the water
loading (g water / g dry salt) measured there.  One row of the cleaned
`iso` table of `src/main.py`. -/
structure IsothermPoint where
  rh : ℚ
  loading : ℚ
deriving DecidableEq, Repr

/-- Piecewise-linear interpolation with clamping, the semantics of
`np.interp(x, xp, fp)` for a non-empty grid given as head point `p` and
tail `rest` (lines 68 of `src/main.py`):
for `x ≤ p.rh` the first loading is returned (clamp below / exact hit);
for `x` inside an interval `(p.rh, q.rh]` the linear interpolant is
returned; past the last point the last loading is returned (clamp above).
For a one-point grid `np.interp` returns `fp[0]` for every `x`, which is
the `[]` case here. -/
def interpFrom (x : ℚ) (p : IsothermPoint) : List IsothermPoint → ℚ
  | [] => p.loading
  | q :: rest =>
    if x ≤ p.rh then p.loading
    else if x ≤ q.rh then
      p.loading + (q.loading - p.loading) * (x - p.rh) / (q.rh - p.rh)
    else interpFrom x q rest

/-- The baseline `baseline_q = np.interp(start_rh, iso[rh_col], iso[q_col])`
(line 68 of `src/main.py`).  `np.interp` raises on an empty grid, hence
`none` for the empty series; the script guarantees non-emptiness via the
`iso.empty` guard. -/
def compute_baseline (series : List IsothermPoint) (start_rh : ℚ) : Option ℚ :=
  match series with
  | [] => none
  | p :: rest => some (interpFrom start_rh p rest)

/-- The normalizer `initial_total_mass = 1.0 + baseline_q`
(line 69 of `src/main.py`). -/
def initial_total_mass (baseline_q : ℚ) : ℚ := 1 + baseline_q

/-- One entry of the adjusted-uptake column (line 72 of `src/main.py`):
`(1.0 + iso[q_col] - initial_total_mass) / initial_total_mass`. -/
def adjusted_uptake (baseline_q loading : ℚ) : ℚ :=
  (1 + loading - initial_total_mass baseline_q) / initial_total_mass baseline_q

/-- The full adjusted series (lines 68-72 of `src/main.py`): interpolate the
baseline at `start_rh`, then map every point of the series to the pair of
its relative humidity and its adjusted uptake. -/
def compute_adjusted_series (series : List IsothermPoint) (start_rh : ℚ) :
    Option (List (ℚ × ℚ)) :=
  (compute_baseline series start_rh).map fun baseline_q =>
    series.map fun p => (p.rh, adjusted_uptake baseline_q p.loading)

/-- The worked example series of the spec:
`[(0,0.05),(20,0.10),(40,0.18),(60,0.30),(80,0.50),(100,0.80)]`. -/
def exampleSeries : List IsothermPoint :=
  [⟨0, 0.05⟩, ⟨20, 0.10⟩, ⟨40, 0.18⟩, ⟨60, 0.30⟩, ⟨80, 0.50⟩, ⟨100, 0.80⟩]

/-- If the grid is strictly sorted by relative humidity, interpolation at the
relative humidity of a grid point returns exactly that point's loading. -/
theorem interpFrom_mem (hd : IsothermPoint) (tl : List IsothermPoint)
    (hsort : (hd :: tl).Pairwise (fun a b => a.rh < b.rh))
    (p : IsothermPoint) (hmem : p ∈ hd :: tl) :
    interpFrom p.rh hd tl = p.loading := by
  induction tl generalizing hd with
  | nil =>
    rcases List.mem_singleton.mp hmem with rfl
    simp [interpFrom]
  | cons q rest ih =>
    rcases List.mem_cons.mp hmem with rfl | hmem'
    · simp [interpFrom]
    · have hhd : hd.rh < p.rh := (List.pairwise_cons.mp hsort).1 p hmem'
      have hsort' := (List.pairwise_cons.mp hsort).2
      rcases List.mem_cons.mp hmem' with rfl | hmem''
      · have hne : p.rh - hd.rh ≠ 0 := sub_ne_zero.mpr (ne_of_gt hhd)
        simp only [interpFrom, if_neg (not_le.mpr hhd), if_pos le_rfl]
        rw [mul_div_assoc, div_self hne, mul_one]
        ring
      · have hq : q.rh < p.rh := (List.pairwise_cons.mp hsort').1 p hmem''
        simp only [interpFrom, if_neg (not_le.mpr hhd), if_neg (not_le.mpr hq)]
        exact ih q hsort' hmem'

/-- Interpolation for `start_rh` below every grid point returns the loading of
the first point (clamping below the data range, no extrapolation). -/
theorem interpFrom_below (x : ℚ) (hd : IsothermPoint) (tl : List IsothermPoint)
    (hx : x ≤ hd.rh) : interpFrom x hd tl = hd.loading := by
  cases tl with
  | nil => simp [interpFrom]
  | cons q rest => simp [interpFrom, if_pos hx]

/-- Interpolation for `start_rh` above every grid point returns the loading of
the last point (clamping above the data range, no extrapolation). -/
theorem interpFrom_above (x : ℚ) (hd : IsothermPoint) (tl : List IsothermPoint)
    (hx : ∀ p ∈ hd :: tl, p.rh < x) :
    interpFrom x hd tl = ((hd :: tl).getLast (by simp)).loading := by
  induction tl generalizing hd with
  | nil => simp [interpFrom]
  | cons q rest ih =>
    have h1 : hd.rh < x := hx hd (by simp)
    have h2 : q.rh < x := hx q (by simp)
    simp only [interpFrom, if_neg (not_le.mpr h1), if_neg (not_le.mpr h2)]
    rw [ih q (fun p hp => hx p (List.mem_cons_of_mem hd hp))]
    simp [List.getLast_cons]

/-- If every loading of the grid is non-negative, so is any interpolated
value: inside an interval the interpolant is a convex-style combination of the
two neighbouring loadings, and outside it equals an endpoint loading. -/
theorem interpFrom_nonneg (x : ℚ) (hd : IsothermPoint) (tl : List IsothermPoint)
    (hnn : ∀ p ∈ hd :: tl, 0 ≤ p.loading) :
    0 ≤ interpFrom x hd tl := by
  induction tl generalizing hd with
  | nil => simpa [interpFrom] using hnn hd (by simp)
  | cons q rest ih =>
    have h0 : 0 ≤ hd.loading := hnn hd (by simp)
    have h1 : 0 ≤ q.loading := hnn q (by simp)
    by_cases hle : x ≤ hd.rh
    · simpa [interpFrom, if_pos hle] using h0
    · by_cases hle2 : x ≤ q.rh
      · simp only [interpFrom, if_neg hle, if_pos hle2]
        have hlt : hd.rh < x := not_le.mp hle
        have hd0 : (0:ℚ) < q.rh - hd.rh := by linarith
        have hrw : hd.loading + (q.loading - hd.loading) * (x - hd.rh) / (q.rh - hd.rh)
            = (hd.loading * (q.rh - x) + q.loading * (x - hd.rh)) / (q.rh - hd.rh) := by
          field_simp
          ring
        rw [hrw]
        apply div_nonneg _ (le_of_lt hd0)
        have ha : (0:ℚ) ≤ hd.loading * (q.rh - x) := mul_nonneg h0 (by linarith)
        have hb : (0:ℚ) ≤ q.loading * (x - hd.rh) := mul_nonneg h1 (by linarith)
        linarith
      · simp only [interpFrom, if_neg hle, if_neg hle2]
        exact ih q (fun p hp => hnn p (List.mem_cons_of_mem hd hp))

/-- Whenever `compute_baseline` succeeds on a series of non-negative loadings,
the baseline loading is non-negative. -/
theorem baseline_nonneg (series : List IsothermPoint) (start_rh b : ℚ)
    (hb : compute_baseline series start_rh = some b)
    (hnn : ∀ p ∈ series, 0 ≤ p.loading) : 0 ≤ b := by
  cases series with
  | nil => simp [compute_baseline] at hb
  | cons hd tl =>
    simp only [compute_baseline, Option.some.injEq] at hb
    subst hb
    exact interpFrom_nonneg start_rh hd tl hnn

/-- In a series sorted by non-decreasing relative humidity, every point's
relative humidity is at most that of the last point. -/
theorem rh_le_getLast (hd : IsothermPoint) (tl : List IsothermPoint)
    (hsort : (hd :: tl).Pairwise (fun a b => a.rh ≤ b.rh)) :
    ∀ p ∈ hd :: tl, p.rh ≤ ((hd :: tl).getLast (by simp)).rh := by
  induction tl generalizing hd with
  | nil =>
    intro p hp
    rcases List.mem_singleton.mp hp with rfl
    simp
  | cons q rest ih =>
    intro p hp
    have hsort' := (List.pairwise_cons.mp hsort).2
    have hlast : ((hd :: q :: rest).getLast (by simp)) = ((q :: rest).getLast (by simp)) :=
      List.getLast_cons (by simp)
    rw [hlast]
    rcases List.mem_cons.mp hp with rfl | hp'
    · have h1 : p.rh ≤ q.rh := (List.pairwise_cons.mp hsort).1 q (by simp)
      exact le_trans h1 (ih q hsort' q (by simp))
    · exact ih q hsort' p hp'

/-- C6: Interpolation correctness: for the series
`[(0, 0.10), (50, 0.30), (100, 0.60)]` and `start_rh = 25`,
`compute_baseline` returns `0.20`, the linear-interpolation midpoint
between `0.10` and `0.30`. -/
theorem interpolation_correctness :
    compute_baseline [⟨0, 0.10⟩, ⟨50, 0.30⟩, ⟨100, 0.60⟩] 25 = some 0.20 := by
  norm_num [compute_baseline, interpFrom]

/-- C1: Zero-crossing: for every cleaned series (strictly ascending relative
humidities, as produced by the cleaning pipeline on distinct RH values) and
every `start_rh` that coincides with the relative humidity of a data point of
the series, `compute_adjusted_series` succeeds and its output contains the
pair `(start_rh, 0)`: the adjusted uptake at the point whose RH equals
`start_rh` is exactly `0`. -/
theorem zero_crossing (hd : IsothermPoint) (tl : List IsothermPoint)
    (hsort : (hd :: tl).Pairwise (fun a b => a.rh < b.rh))
    (start_rh : ℚ) (p : IsothermPoint) (hp : p ∈ hd :: tl) (hx : p.rh = start_rh) :
    ∃ out, compute_adjusted_series (hd :: tl) start_rh = some out ∧
      (start_rh, (0 : ℚ)) ∈ out := by
  subst hx
  refine ⟨_, rfl, ?_⟩
  have hb : interpFrom p.rh hd tl = p.loading := interpFrom_mem hd tl hsort p hp
  have hz : adjusted_uptake (interpFrom p.rh hd tl) p.loading = 0 := by
    rw [hb]
    unfold adjusted_uptake initial_total_mass
    rw [show (1 + p.loading - (1 + p.loading) : ℚ) = 0 by ring, zero_div]
  exact List.mem_map.mpr ⟨p, hp, by rw [hz]⟩

/-- Witness for C1 on the concrete series `[(0,1),(50,2)]` with `start_rh = 50`. -/
theorem zero_crossing_witness :
    ∃ out, compute_adjusted_series [⟨0, 1⟩, ⟨50, 2⟩] 50 = some out ∧
      ((50 : ℚ), (0 : ℚ)) ∈ out :=
  zero_crossing ⟨0, 1⟩ [⟨50, 2⟩] (by norm_num [List.pairwise_cons]) 50 ⟨50, 2⟩
    (by simp) rfl

/-- C2: Clamping without error: for every non-empty series sorted by
non-decreasing RH, `compute_baseline` always succeeds (no error for
out-of-range `start_rh`); if `start_rh` is strictly below the minimum RH
(the first point's RH) it returns the loading of the first point, and if
strictly above the maximum RH (the last point's RH) it returns the loading
of the last point. -/
theorem clamping_no_error (hd : IsothermPoint) (tl : List IsothermPoint) (start_rh : ℚ)
    (hsort : (hd :: tl).Pairwise (fun a b => a.rh ≤ b.rh)) :
    (compute_baseline (hd :: tl) start_rh).isSome = true ∧
    (start_rh < hd.rh → compute_baseline (hd :: tl) start_rh = some hd.loading) ∧
    (((hd :: tl).getLast (by simp)).rh < start_rh →
      compute_baseline (hd :: tl) start_rh =
        some (((hd :: tl).getLast (by simp)).loading)) := by
  refine ⟨rfl, ?_, ?_⟩
  · intro h
    simp only [compute_baseline, Option.some.injEq]
    exact interpFrom_below start_rh hd tl (le_of_lt h)
  · intro h
    simp only [compute_baseline, Option.some.injEq]
    apply interpFrom_above
    intro p hp
    exact lt_of_le_of_lt (rh_le_getLast hd tl hsort p hp) h

/-- Witness for C2 on the sorted series `[(10,2),(20,5)]` with `start_rh = 25`. -/
theorem clamping_no_error_witness :
    (compute_baseline [⟨10, 2⟩, ⟨20, 5⟩] 25).isSome = true ∧
    ((25 : ℚ) < (⟨10, 2⟩ : IsothermPoint).rh →
      compute_baseline [⟨10, 2⟩, ⟨20, 5⟩] 25 = some (⟨10, 2⟩ : IsothermPoint).loading) ∧
    ((([⟨10, 2⟩, ⟨20, 5⟩] : List IsothermPoint).getLast (by simp)).rh < 25 →
      compute_baseline [⟨10, 2⟩, ⟨20, 5⟩] 25 =
        some ((([⟨10, 2⟩, ⟨20, 5⟩] : List IsothermPoint).getLast (by simp)).loading)) :=
  clamping_no_error ⟨10, 2⟩ [⟨20, 5⟩] 25 (by norm_num [List.pairwise_cons])

/-- C3: Formula equivalence: whenever `compute_baseline` yields `b`, the value
the code computes for a point `p`, `(1.0 + p.loading - initial_total_mass) /
initial_total_mass` with `initial_total_mass = 1.0 + b`, equals
`(p.loading - b) / (1.0 + b)`. -/
theorem formula_equivalence (series : List IsothermPoint) (start_rh b : ℚ)
    (_hb : compute_baseline series start_rh = some b)
    (p : IsothermPoint) (_hp : p ∈ series) :
    adjusted_uptake b p.loading = (p.loading - b) / (1 + b) := by
  unfold adjusted_uptake initial_total_mass
  congr 1
  ring

/-- Witness for C3 on the one-point series `[(0,3)]` with `start_rh = 10`. -/
theorem formula_equivalence_witness :
    compute_baseline [⟨0, 3⟩] 10 = some 3 ∧
    adjusted_uptake 3 (⟨0, 3⟩ : IsothermPoint).loading =
      ((⟨0, 3⟩ : IsothermPoint).loading - 3) / (1 + 3) :=
  ⟨rfl, formula_equivalence [⟨0, 3⟩] 10 3 rfl ⟨0, 3⟩ (by simp)⟩

/-- C4: Division safety: for every series whose loadings are all non-negative,
a successfully interpolated `baseline_q` is non-negative, hence
`initial_total_mass = 1.0 + baseline_q` is never `0` and the division in the
adjusted-uptake computation is always defined. -/
theorem division_safety (series : List IsothermPoint) (start_rh b : ℚ)
    (hb : compute_baseline series start_rh = some b)
    (hnn : ∀ p ∈ series, 0 ≤ p.loading) :
    0 ≤ b ∧ initial_total_mass b ≠ 0 := by
  have h0 := baseline_nonneg series start_rh b hb hnn
  refine ⟨h0, ?_⟩
  unfold initial_total_mass
  intro hcontra
  linarith

/-- Witness for C4 on the one-point series `[(0,2)]` with `start_rh = 5`. -/
theorem division_safety_witness :
    0 ≤ (2 : ℚ) ∧ initial_total_mass 2 ≠ 0 :=
  division_safety [⟨0, 2⟩] 5 2 rfl (by simp)

/-- C7: Monotonicity: for a fixed baseline obtained from a series with
non-negative loadings, `adjusted_uptake` is strictly increasing in the
point's loading. -/
theorem monotonicity (series : List IsothermPoint) (start_rh b q1 q2 : ℚ)
    (hb : compute_baseline series start_rh = some b)
    (hnn : ∀ p ∈ series, 0 ≤ p.loading) (hlt : q1 < q2) :
    adjusted_uptake b q1 < adjusted_uptake b q2 := by
  have h0 := baseline_nonneg series start_rh b hb hnn
  have hpos : (0:ℚ) < initial_total_mass b := by
    unfold initial_total_mass
    linarith
  unfold adjusted_uptake
  exact (div_lt_div_iff_of_pos_right hpos).mpr (by linarith)

/-- Witness for C7 on the one-point series `[(0,2)]` with loadings `1 < 4`. -/
theorem monotonicity_witness : adjusted_uptake 2 1 < adjusted_uptake 2 4 :=
  monotonicity [⟨0, 2⟩] 5 2 1 4 rfl (by simp) (by norm_num)

/-- The full evaluation of the spec's worked example: baseline `0.18` at
`start_rh = 40` and the six adjusted values. -/
theorem exampleSeries_eval :
    compute_adjusted_series exampleSeries 40 =
      some [(0, -13/118), (20, -4/59), (40, 0), (60, 6/59), (80, 16/59), (100, 31/59)] := by
  norm_num [compute_adjusted_series, compute_baseline, interpFrom, adjusted_uptake,
    initial_total_mass, exampleSeries]

/-- C5 counterexample: on the worked example the adjusted uptake at
`RH = 100` is `(1+0.80−1.18)/1.18 = 31/59 ≈ 0.5254237288`, not
`≈ 0.6203389830` as claimed: the two differ by more than `0.09`. -/
theorem end_to_end_example_counterexample :
    (∃ out, compute_adjusted_series exampleSeries 40 = some out ∧
      ((100 : ℚ), (31 : ℚ)/59) ∈ out) ∧
    ¬ |(31 : ℚ)/59 - 0.6203389830| < 9/100 := by
  constructor
  · exact ⟨_, exampleSeries_eval, by norm_num⟩
  · rw [abs_sub_lt_iff]
    norm_num

/-- C5 (amended): for the worked example series and `start_rh = 40`,
`baseline_q = 0.18`, `initial_total_mass = 1.18`, the adjusted uptake at
`RH = 100` is `(1+0.80−1.18)/1.18 = 31/59 ≈ 0.5254237288`, and the adjusted
uptake at `RH = 0` is `(1+0.05−1.18)/1.18 = −13/118 ≈ −0.11016949`. -/
theorem end_to_end_example :
    compute_baseline exampleSeries 40 = some 0.18 ∧
    initial_total_mass 0.18 = 1.18 ∧
    (∃ out, compute_adjusted_series exampleSeries 40 = some out ∧
      ((100 : ℚ), ((1 : ℚ) + 0.80 - 1.18) / 1.18) ∈ out ∧
      ((0 : ℚ), ((1 : ℚ) + 0.05 - 1.18) / 1.18) ∈ out) ∧
    ((1 : ℚ) + 0.80 - 1.18) / 1.18 = 31/59 ∧
    |((1 : ℚ) + 0.80 - 1.18) / 1.18 - 0.5254237288| < 1/1000000 ∧
    ((1 : ℚ) + 0.05 - 1.18) / 1.18 = -13/118 ∧
    |((1 : ℚ) + 0.05 - 1.18) / 1.18 - (-0.11016949)| < 1/1000000 := by
  refine ⟨?_, ?_, ⟨_, exampleSeries_eval, ?_, ?_⟩, ?_, ?_, ?_, ?_⟩
  · norm_num [compute_baseline, interpFrom, exampleSeries]
  · norm_num [initial_total_mass]
  · norm_num
  · norm_num
  · norm_num
  · rw [abs_sub_lt_iff]
    norm_num
  · norm_num
  · rw [abs_sub_lt_iff]
    norm_num

/-- A cell of the raw uploaded table `df_raw`: either missing (`NaN`), a
numeric value, or a non-numeric entry (e.g. text). -/
inductive Cell where
  | missing
  | numeric (q : ℚ)
  | nonNumeric
deriving DecidableEq, Repr

/-- Numeric coercion of one cell, `pd.to_numeric(..., errors="coerce")`:
numeric cells are kept, anything else becomes `NaN` (missing). -/
def Cell.coerce : Cell → Cell
  | .numeric q => .numeric q
  | _ => .missing

/-- Whether the cell is missing (`NaN`); the test applied by `.dropna()`. -/
def Cell.isMissing : Cell → Bool
  | .missing => true
  | _ => false

/-- The numeric value of a cell; the pipeline only reads it off cells that
survived both `.dropna()` passes, which are numeric. -/
def Cell.val : Cell → ℚ
  | .numeric q => q
  | _ => 0

/-- The raw uploaded table `df_raw` as parsed by `pd.read_csv`: a list of
column names and rows of cells. -/
structure RawTable where
  cols : List String
  rows : List (List Cell)

/-- Column selection `df_raw[[rh_col, q_col]]`: keep the two chosen columns
of every row (columns addressed by position here; a row shorter than the
table's width reads as missing). -/
def selectColumns (t : RawTable) (rh_col q_col : Nat) : List (Cell × Cell) :=
  t.rows.map fun row => (row.getD rh_col .missing, row.getD q_col .missing)

/-- Row filter `.dropna()` on a two-column frame: drop every row that has a
missing value in either column. -/
def dropna (rows : List (Cell × Cell)) : List (Cell × Cell) :=
  rows.filter fun r => !r.1.isMissing && !r.2.isMissing

/-- Sorting step `.sort_values(rh_col)`: stable sort of the cleaned points
by relative humidity. -/
def sort_values (pts : List IsothermPoint) : List IsothermPoint :=
  pts.mergeSort fun a b => decide (a.rh ≤ b.rh)

/-- Lines 45-52 of `src/main.py`: the cleaned `iso` table,
`df_raw[[rh_col, q_col]].dropna().apply(pd.to_numeric, errors="coerce")
.dropna().sort_values(rh_col).reset_index(drop=True)`
(`reset_index` only renumbers rows and has no counterpart on lists). -/
def cleanSeries (t : RawTable) (rh_col q_col : Nat) : List IsothermPoint :=
  let selected := selectColumns t rh_col q_col
  let coerced := (dropna selected).map fun r => (r.1.coerce, r.2.coerce)
  sort_values ((dropna coerced).map fun r => ⟨r.1.val, r.2.val⟩)

/-- Lines 37-72 of `src/main.py` after a file is uploaded: the guard at
lines 37-39 (`df_raw.empty or len(df_raw.columns) < 2`) stops with an error
message; otherwise the columns are cleaned, the guard at lines 54-56 stops
with an error message when the cleaned table is empty, and only then is the
adjusted series computed. -/
def run_app (t : RawTable) (rh_col q_col : Nat) (start_rh : ℚ) :
    Except String (List (ℚ × ℚ)) :=
  if t.rows.isEmpty ∨ t.cols.length < 2 then
    Except.error "CSV must contain at least two numeric columns (RH and loading)."
  else
    match compute_adjusted_series (cleanSeries t rh_col q_col) start_rh with
    | none => Except.error "Selected columns could not be converted to numeric values."
    | some out => Except.ok out

/-- C8: Fail-fast on insufficient input: whenever the uploaded table has
fewer than two columns, or the selected columns yield zero numeric rows
after cleaning, the program stops with a blocking error message and the
baseline/adjusted-series computation is never invoked: the run produces an
error value and no output. -/
theorem fail_fast (t : RawTable) (rh_col q_col : Nat) (start_rh : ℚ)
    (h : t.cols.length < 2 ∨ cleanSeries t rh_col q_col = []) :
    ∃ msg, run_app t rh_col q_col start_rh = Except.error msg := by
  unfold run_app
  by_cases hc : t.rows.isEmpty ∨ t.cols.length < 2
  · rw [if_pos hc]
    exact ⟨_, rfl⟩
  · rw [if_neg hc]
    rcases h with h | h
    · exact absurd (Or.inr h) hc
    · rw [h]
      exact ⟨_, rfl⟩

/-- Witness for C8 on a one-column table. -/
theorem fail_fast_witness :
    ∃ msg, run_app ⟨["RH"], [[Cell.numeric 1]]⟩ 0 1 5 = Except.error msg :=
  fail_fast ⟨["RH"], [[Cell.numeric 1]]⟩ 0 1 5 (Or.inl (by norm_num))

/-- Serialization `iso.to_csv(index=False)` of the three-column frame `iso`
as it stands after line 72: a header row of the three column names, then one
comma-separated line per row, each line terminated by a newline; no index
column is written.  Numeric formatting of `to_csv` is outside the rational
model, so the per-value renderer is a parameter. -/
def to_csv (render : ℚ → String) (rh_name q_name adj_name : String)
    (rows : List (ℚ × ℚ × ℚ)) : String :=
  rh_name ++ "," ++ q_name ++ "," ++ adj_name ++ "\n" ++
  String.join (rows.map fun r =>
    render r.1 ++ "," ++ render r.2.1 ++ "," ++ render r.2.2 ++ "\n")

/-- The three-column frame `iso` after line 72 of `src/main.py`: the cleaned
columns (RH, loading) with the adjusted-uptake column appended. -/
def adjusted_table (series : List IsothermPoint) (start_rh : ℚ) :
    Option (List (ℚ × ℚ × ℚ)) :=
  (compute_baseline series start_rh).map fun baseline_q =>
    series.map fun p => (p.rh, p.loading, adjusted_uptake baseline_q p.loading)

/-- Lines 90-94 of `src/main.py`: the bytes handed to the download button,
`iso.to_csv(index=False).encode("utf-8")`. -/
def download_data (render : ℚ → String) (rh_name q_name : String)
    (series : List IsothermPoint) (start_rh : ℚ) : Option ByteArray :=
  (adjusted_table series start_rh).map fun rows =>
    (to_csv render rh_name q_name "Adjusted uptake (g/g initial mass)" rows).toUTF8

/-- C9: Export contents: for every non-empty cleaned series the downloadable
file is the UTF-8 encoding of a comma-separated table whose header row lists
the two selected column names followed by the adjusted-uptake column name
(no index column), and whose data rows are the cleaned original columns
(RH, loading) with the adjusted-uptake value appended, one line per point. -/
theorem export_contents (render : ℚ → String) (rh_name q_name : String)
    (hd : IsothermPoint) (tl : List IsothermPoint) (start_rh : ℚ) :
    download_data render rh_name q_name (hd :: tl) start_rh =
      some (String.toUTF8 (
        rh_name ++ "," ++ q_name ++ "," ++ "Adjusted uptake (g/g initial mass)" ++ "\n" ++
        String.join ((hd :: tl).map fun p =>
          render p.rh ++ "," ++ render p.loading ++ "," ++
            render (adjusted_uptake (interpFrom start_rh hd tl) p.loading) ++ "\n"))) := by
  simp [download_data, adjusted_table, to_csv, compute_baseline, List.map_map,
    Function.comp_def]

/-- C10: Single-point edge case: for a one-point series `[(rh0, q0)]` and any
`start_rh` whatsoever, the interpolated baseline equals `q0` and the adjusted
series is the single pair `(rh0, 0)`. -/
theorem single_point (rh0 q0 start_rh : ℚ) :
    compute_baseline [⟨rh0, q0⟩] start_rh = some q0 ∧
    compute_adjusted_series [⟨rh0, q0⟩] start_rh = some [(rh0, 0)] := by
  refine ⟨rfl, ?_⟩
  simp [compute_adjusted_series, compute_baseline, interpFrom, adjusted_uptake,
    initial_total_mass]
